import Mathlib

/-!
Verification of the session-scoped JSON blob store (Express + MongoDB service
with an export script) against its natural-language specification.

The development shallowly embeds the relevant JavaScript source:

* `src/src/index.js` — the HTTP service: UUID validation regex, the
  `POST /:sessionId` ingestion handler, the `GET /export` full scan, and the
  `GET /health` endpoint, together with the Mongoose `logSchema`.
* `src/scripts/export-all-data.js` — the maintenance export script:
  `exportAsJson`, `exportAsNdjson`, `exportBySession`, `printStatistics`,
  and the `exportAllData` driver.

JSON values are modelled by the inductive `Json`; the MongoDB collection by a
list of `LogRecord` in insertion order, with store-assigned ids `0, 1, 2, …`
(modelling the store-assigned, insertion-ordered ObjectIds) and timestamps as
naturals (milliseconds).
-/

/-- A structurally valid JSON value, as parsed by the HTTP boundary:
null, boolean, number, string, array or object. Numbers are modelled as
integers; objects as association lists in key order. -/
inductive Json where
  | null : Json
  | bool (b : Bool) : Json
  | num (n : Int) : Json
  | str (s : String) : Json
  | arr (xs : List Json) : Json
  | obj (fields : List (String × Json)) : Json

/-- Character class of the regex fragment `[0-9a-f]` under the `i` flag:
a case-insensitive hexadecimal digit. -/
def isHexChar (c : Char) : Bool :=
  (('0' ≤ c) && (c ≤ '9')) || (('a' ≤ c) && (c ≤ 'f')) || (('A' ≤ c) && (c ≤ 'F'))

/-- Character class of the regex fragment `[1-5]` (the version nibble as the
source regex actually constrains it). The `i` flag is irrelevant on digits. -/
def isVersionChar (c : Char) : Bool :=
  ('1' ≤ c) && (c ≤ '5')

/-- Character class of the regex fragment `[89ab]` under the `i` flag
(the variant nibble). -/
def isVariantChar (c : Char) : Bool :=
  c == '8' || c == '9' || c == 'a' || c == 'b' || c == 'A' || c == 'B'

/-- Consume exactly `n` characters, each satisfying `p`, from the front of the
input; return the remaining characters, or `none` if matching fails.
This is the semantics of a fixed-repetition character-class regex fragment. -/
def matchRun : Nat → (Char → Bool) → List Char → Option (List Char)
  | 0, _, cs => some cs
  | _ + 1, _, [] => none
  | n + 1, p, c :: cs => if p c then matchRun n p cs else none

/-- Consume one literal character `d` from the front of the input. -/
def matchChar (d : Char) : List Char → Option (List Char)
  | [] => none
  | c :: cs => if c == d then some cs else none

/-- Embedding of the anchored UUID regex from `src/src/index.js` line 139
(`src/unnamed/part_001` line 44):
`^[0-9a-f]\x7b8\x7d-[0-9a-f]\x7b4\x7d-[1-5][0-9a-f]\x7b3\x7d-[89ab][0-9a-f]\x7b3\x7d-[0-9a-f]\x7b12\x7d$` with the `i` flag.
The anchors mean the whole string must be consumed. -/
def uuidRegexTest (s : String) : Bool :=
  ((((((((((matchRun 8 isHexChar s.data).bind
    (matchChar '-')).bind
    (matchRun 4 isHexChar)).bind
    (matchChar '-')).bind
    (matchRun 1 isVersionChar)).bind
    (matchRun 3 isHexChar)).bind
    (matchChar '-')).bind
    (matchRun 1 isVariantChar)).bind
    (matchRun 3 isHexChar)).bind
    (matchChar '-')).bind
    (matchRun 12 isHexChar) == some []

/-- Modelled from the spec: the UUID textual grammar
`xxxxxxxx-xxxx-Vxxx-Wxxx-xxxxxxxxxxxx` — five dash-separated groups of
8, 4, 4, 4 and 12 case-insensitive hex digits, where the first character of
the third group (the version nibble) satisfies `versionOk` and the first
character of the fourth group (the variant nibble) lies in `\x7b8,9,a,b\x7d`
case-insensitively. The spec fixes `versionOk` to the single character `4`
for UUID v4. -/
def uuidGrammar (versionOk : Char → Prop) (s : String) : Prop :=
  ∃ g1 g2 g3 g4 g5 : List Char,
    s.data = g1 ++ '-' :: (g2 ++ '-' :: (g3 ++ '-' :: (g4 ++ '-' :: g5))) ∧
    g1.length = 8 ∧ g2.length = 4 ∧ g3.length = 4 ∧ g4.length = 4 ∧
    g5.length = 12 ∧
    (∀ c ∈ g1, isHexChar c = true) ∧ (∀ c ∈ g2, isHexChar c = true) ∧
    (∃ v t, g3 = v :: t ∧ versionOk v ∧ ∀ c ∈ t, isHexChar c = true) ∧
    (∃ w t, g4 = w :: t ∧ isVariantChar w = true ∧ ∀ c ∈ t, isHexChar c = true) ∧
    (∀ c ∈ g5, isHexChar c = true)

theorem matchRun_eq_some {n : Nat} {p : Char → Bool} {cs rest : List Char} :
    matchRun n p cs = some rest ↔
      ∃ pre, cs = pre ++ rest ∧ pre.length = n ∧ ∀ c ∈ pre, p c = true := by
  induction n generalizing cs with
  | zero =>
    simp only [matchRun, Option.some.injEq]
    constructor
    · rintro rfl
      exact ⟨[], rfl, rfl, by simp⟩
    · rintro ⟨pre, hcs, hlen, -⟩
      rw [List.length_eq_zero] at hlen
      subst hlen
      simpa using hcs
  | succ n ih =>
    cases cs with
    | nil =>
      simp only [matchRun]
      constructor
      · intro h
        exact absurd h (by simp)
      · rintro ⟨pre, hcs, hlen, -⟩
        have : pre = [] ∧ rest = [] := by
          constructor
          · exact List.append_eq_nil.1 hcs.symm |>.1
          · exact List.append_eq_nil.1 hcs.symm |>.2
        rw [this.1] at hlen
        simp at hlen
    | cons c cs =>
      simp only [matchRun]
      by_cases hc : p c = true
      · rw [if_pos hc, ih]
        constructor
        · rintro ⟨pre, hcs, hlen, hall⟩
          exact ⟨c :: pre, by simp [hcs], by simp [hlen],
            by intro x hx; rcases List.mem_cons.1 hx with h | h
               · exact h ▸ hc
               · exact hall x h⟩
        · rintro ⟨pre, hcs, hlen, hall⟩
          cases pre with
          | nil => simp at hlen
          | cons d pre =>
            have hd : d = c := by simpa using congrArg (fun l => l.head?) hcs.symm
            subst hd
            refine ⟨pre, by simpa using hcs, by simpa using hlen, ?_⟩
            intro x hx
            exact hall x (List.mem_cons_of_mem _ hx)
      · rw [if_neg hc]
        constructor
        · intro h
          exact absurd h (by simp)
        · rintro ⟨pre, hcs, hlen, hall⟩
          cases pre with
          | nil => simp at hlen
          | cons d pre =>
            have hd : d = c := by simpa using congrArg (fun l => l.head?) hcs.symm
            exact absurd (hd ▸ hall d (List.mem_cons_self d pre)) hc

theorem matchChar_eq_some {d : Char} {cs rest : List Char} :
    matchChar d cs = some rest ↔ cs = d :: rest := by
  cases cs with
  | nil => simp [matchChar]
  | cons c cs =>
    simp only [matchChar]
    by_cases hc : c = d
    · subst hc
      simp
    · rw [if_neg (by simpa using hc)]
      simp [hc]

theorem uuidRegexTest_iff_grammar {s : String} :
    uuidRegexTest s = true ↔ uuidGrammar (fun v => isVersionChar v = true) s := by
  unfold uuidRegexTest
  rw [beq_iff_eq]
  simp only [Option.bind_eq_some]
  constructor
  · rintro ⟨r10, ⟨r9, ⟨r8, ⟨r7, ⟨r6, ⟨r5, ⟨r4, ⟨r3, ⟨r2, ⟨r1, h1, h2⟩, h3⟩,
      h4⟩, h5⟩, h6⟩, h7⟩, h8⟩, h9⟩, h10⟩, h11⟩
    obtain ⟨g1, e1, l1, a1⟩ := matchRun_eq_some.1 h1
    have f1 := matchChar_eq_some.1 h2
    subst f1
    obtain ⟨g2, e2, l2, a2⟩ := matchRun_eq_some.1 h3
    subst e2
    have f2 := matchChar_eq_some.1 h4
    subst f2
    obtain ⟨vp, e3, l3, a3⟩ := matchRun_eq_some.1 h5
    subst e3
    obtain ⟨v, hv⟩ := List.length_eq_one.1 l3
    subst hv
    obtain ⟨t3, e4, l4, a4⟩ := matchRun_eq_some.1 h6
    subst e4
    have f3 := matchChar_eq_some.1 h7
    subst f3
    obtain ⟨wp, e5, l5, a5⟩ := matchRun_eq_some.1 h8
    subst e5
    obtain ⟨w, hw⟩ := List.length_eq_one.1 l5
    subst hw
    obtain ⟨t4, e6, l6, a6⟩ := matchRun_eq_some.1 h9
    subst e6
    have f4 := matchChar_eq_some.1 h10
    subst f4
    obtain ⟨g5, e7, l7, a7⟩ := matchRun_eq_some.1 h11
    rw [List.append_nil] at e7
    subst e7
    refine ⟨g1, g2, v :: t3, w :: t4, r10, ?_, l1, l2, by simp [l4], by simp [l6],
      l7, a1, a2, ⟨v, t3, rfl, a3 v (by simp), a4⟩, ⟨w, t4, rfl, a5 w (by simp), a6⟩, a7⟩
    simpa using e1
  · rintro ⟨g1, g2, g3, g4, g5, hs, h1, h2, h3, h4, h5, hx1, hx2,
      ⟨v, t3, hg3, hv, ht3⟩, ⟨w, t4, hg4, hw, ht4⟩, hx5⟩
    subst hg3
    subst hg4
    refine ⟨g5, ?_, matchRun_eq_some.2 ⟨g5, by simp, h5, hx5⟩⟩
    refine ⟨'-' :: g5, ?_, matchChar_eq_some.2 rfl⟩
    refine ⟨t4 ++ '-' :: g5, ?_, matchRun_eq_some.2 ⟨t4, rfl, by simpa using h4, ht4⟩⟩
    refine ⟨(w :: t4) ++ '-' :: g5, ?_, matchRun_eq_some.2
      ⟨[w], rfl, rfl, by intro c hc; simpa using (List.mem_singleton.1 hc ▸ hw)⟩⟩
    refine ⟨'-' :: ((w :: t4) ++ '-' :: g5), ?_, matchChar_eq_some.2 rfl⟩
    refine ⟨t3 ++ '-' :: ((w :: t4) ++ '-' :: g5), ?_, matchRun_eq_some.2
      ⟨t3, rfl, by simpa using h3, ht3⟩⟩
    refine ⟨(v :: t3) ++ '-' :: ((w :: t4) ++ '-' :: g5), ?_, matchRun_eq_some.2
      ⟨[v], rfl, rfl, by intro c hc; simpa using (List.mem_singleton.1 hc ▸ hv)⟩⟩
    refine ⟨'-' :: ((v :: t3) ++ '-' :: ((w :: t4) ++ '-' :: g5)), ?_,
      matchChar_eq_some.2 rfl⟩
    refine ⟨g2 ++ '-' :: ((v :: t3) ++ '-' :: ((w :: t4) ++ '-' :: g5)), ?_,
      matchRun_eq_some.2 ⟨g2, rfl, h2, hx2⟩⟩
    exact ⟨'-' :: (g2 ++ '-' :: ((v :: t3) ++ '-' :: ((w :: t4) ++ '-' :: g5))),
      matchRun_eq_some.2 ⟨g1, by simpa using hs, h1, hx1⟩, matchChar_eq_some.2 rfl⟩

theorem uuidGrammar_version_head {P : Char → Prop} {s : String}
    (h : uuidGrammar P s) : ∃ v, (s.data.drop 14).head? = some v ∧ P v := by
  obtain ⟨g1, g2, g3, g4, g5, hs, l1, l2, l3, l4, l5, hx1, hx2,
    ⟨v, t, hg3, hv, ht⟩, hg4x, hx5⟩ := h
  subst hg3
  refine ⟨v, ?_, hv⟩
  have hsplit : s.data =
      (g1 ++ '-' :: (g2 ++ ['-'])) ++ (v :: (t ++ '-' :: (g4 ++ '-' :: g5))) := by
    simpa [List.append_assoc] using hs
  rw [hsplit, List.drop_left' (by simp [l1, l2])]
  rfl

/-- C1 (counterexample): the claim "the validator accepts exactly the UUID v4
grammar, version nibble fixed to 4" is false: the source regex constrains the
version nibble with `[1-5]`, so the version-1 string
`550e8400-e29b-11d4-a716-446655440000` is accepted by the validator although
it does not match the v4 grammar. -/
theorem C1_counterexample :
    ¬ (uuidRegexTest "550e8400-e29b-11d4-a716-446655440000" = true ↔
        uuidGrammar (fun v => v = '4') "550e8400-e29b-11d4-a716-446655440000") := by
  intro h
  obtain ⟨v, hhead, hv⟩ := uuidGrammar_version_head (h.mp (by decide))
  have h1 : some '1' = some v := by
    rw [← hhead]
    decide
  cases h1
  exact absurd hv (by decide)

/-- C1 (amended): for every string `s`, the identifier validator returns true
iff `s` matches the UUID textual grammar 8-4-4-4-12 with case-insensitive hex
digits, the variant nibble in \x7b8,9,a,b\x7d, and the version nibble in
\x7b1,2,3,4,5\x7d (the source regex uses `[1-5]`, not the fixed `4` of the v4
grammar); wrong length, wrong dash placement, out-of-range version nibble,
wrong variant nibble, and non-hex characters are all rejected. -/
theorem C1_validator_grammar (s : String) :
    uuidRegexTest s = true ↔ uuidGrammar (fun v => isVersionChar v = true) s :=
  uuidRegexTest_iff_grammar

/-- One persisted record of the `Log` collection, as the Mongoose `logSchema`
defines it: a session identifier, a Mixed payload, and a `createdAt`
timestamp defaulted to the insert time. The `id` models the store-assigned
`_id` by an insertion-sequence number. -/
structure LogRecord where
  id : Nat
  sessionId : String
  data : Json
  createdAt : Nat

/-- The MongoDB collection in insertion order. -/
abbrev Store := List LogRecord

/-- Mongoose `required: true` on the Mixed `data` path: the default
`checkRequired` accepts any value other than null (and `undefined`, which is
not a JSON value), so `log.save()` rejects a null payload. -/
def mixedCheckRequired : Json → Bool
  | Json.null => false
  | _ => true

/-- Possible responses of the `POST /:sessionId` handler. -/
inductive IngestResult where
  | created (id : Nat) (sessionId : String) (createdAt : Nat) : IngestResult
  | invalidSession : IngestResult
  | serverError : IngestResult

/-- HTTP status code of each ingestion response: 201 on success, 400 on an
invalid session identifier, 500 when `log.save()` rejects. -/
def IngestResult.statusCode : IngestResult → Nat
  | .created _ _ _ => 201
  | .invalidSession => 400
  | .serverError => 500

/-- Embedding of the `POST /:sessionId` handler (`src/src/index.js` lines
134-161): test the session id against the UUID regex (400 on failure, before
any store interaction), then build the record and `save()` it; a save
rejection is caught and mapped to 500. The store assigns the next sequence
id and stamps `createdAt` with the current time `now`. -/
def ingest (sessionId : String) (body : Json) (now : Nat) (store : Store) :
    IngestResult × Store :=
  if uuidRegexTest sessionId then
    if mixedCheckRequired body then
      (IngestResult.created store.length sessionId now,
        store ++ [⟨store.length, sessionId, body, now⟩])
    else (IngestResult.serverError, store)
  else (IngestResult.invalidSession, store)

/-- Comparison used by `Log.find(\x7b\x7d).sort(\x7b createdAt: 1 \x7d)`:
order by `createdAt` ascending. -/
def leCreated (a b : LogRecord) : Bool := decide (a.createdAt ≤ b.createdAt)

/-- One admissible result of `Log.find(\x7b\x7d).sort(\x7b createdAt: 1 \x7d)`
as used by `GET /export` and the export script: the collection sorted by
`createdAt` ascending with a deterministic merge sort. MongoDB specifies no
order among records with equal `createdAt` (the query supplies no secondary
`_id` sort key), so this deterministic realization is relied on only through
facts that hold of every admissible result — membership / permutation and
`createdAt`-sortedness; the full query contract is `isScanResult`. -/
def scanAll (store : Store) : List LogRecord := store.mergeSort leCreated

/-- The contract of `Log.find(\x7b\x7d).sort(\x7b createdAt: 1 \x7d)`
(`src/src/index.js` line 89, `src/scripts/export-all-data.js` line 153):
the query returns the persisted records in some order nondecreasing in
`createdAt`. With no secondary `_id` sort key MongoDB leaves the relative
order of records with equal `createdAt` unspecified, so exactly the
`createdAt`-sorted permutations of the collection are admissible results. -/
def isScanResult (store : Store) (l : List LogRecord) : Prop :=
  l.Perm store ∧ l.Pairwise (fun a b => a.createdAt ≤ b.createdAt)

/-- Well-formedness of the collection: the store-assigned ids are exactly the
insertion sequence 0, 1, 2, …, so ids are unique and sortable by creation
order. Every store reachable through `ingest` satisfies this. -/
def wfStore (store : Store) : Prop :=
  store.map (fun r => r.id) = List.range store.length

/-- Stores reachable from the empty collection through the ingestion
endpoint only. -/
inductive Reachable : Store → Prop where
  | empty : Reachable []
  | step (sid : String) (body : Json) (now : Nat) {s : Store} :
      Reachable s → Reachable (ingest sid body now s).2

/-- C3: ingestion with a session identifier that fails validation returns the
400 ValidationError response and leaves the store unchanged — no record is
inserted, no store interaction occurs. -/
theorem C3_invalid_session_rejected (sid : String) (body : Json) (now : Nat)
    (store : Store) (h : uuidRegexTest sid = false) :
    ingest sid body now store = (IngestResult.invalidSession, store) ∧
    IngestResult.invalidSession.statusCode = 400 := by
  refine ⟨?_, rfl⟩
  simp [ingest, h]

theorem C3_witness :
    uuidRegexTest "not-a-uuid" = false ∧
    (ingest "not-a-uuid" (Json.obj [("event", Json.str "login")]) 3 [] =
        (IngestResult.invalidSession, []) ∧
      IngestResult.invalidSession.statusCode = 400) :=
  ⟨by decide, C3_invalid_session_rejected _ _ _ _ (by decide)⟩

/-- C2 (counterexample): the claim "every structurally valid JSON value,
including null, is persisted" is false: the schema marks `data` as required,
so `log.save()` rejects a null payload and the handler answers 500 without
persisting anything, even for a valid session identifier. -/
theorem C2_counterexample :
    ingest "550e8400-e29b-41d4-a716-446655440000" Json.null 0 [] =
      (IngestResult.serverError, []) := rfl

/-- C2 (amended): for every session identifier that passes validation and
every structurally valid JSON value `P` other than null (the `required: true`
schema option rejects null), ingestion succeeds with 201 and persists exactly
one record whose `data` field is `P`; the payload is not inspected beyond the
non-null check. -/
theorem C2_ingest_persists (sid : String) (body : Json) (now : Nat)
    (store : Store) (hsid : uuidRegexTest sid = true)
    (hbody : body ≠ Json.null) :
    ingest sid body now store =
      (IngestResult.created store.length sid now,
        store ++ [⟨store.length, sid, body, now⟩]) := by
  have hreq : mixedCheckRequired body = true := by
    cases body with
    | null => exact absurd rfl hbody
    | bool b => rfl
    | num n => rfl
    | str s => rfl
    | arr xs => rfl
    | obj fs => rfl
  simp [ingest, hsid, hreq]

theorem C2_witness :
    uuidRegexTest "550e8400-e29b-41d4-a716-446655440000" = true ∧
    Json.obj [("event", Json.str "login")] ≠ Json.null ∧
    ingest "550e8400-e29b-41d4-a716-446655440000"
        (Json.obj [("event", Json.str "login")]) 7 [] =
      (IngestResult.created 0 "550e8400-e29b-41d4-a716-446655440000" 7,
        [⟨0, "550e8400-e29b-41d4-a716-446655440000",
          Json.obj [("event", Json.str "login")], 7⟩]) :=
  ⟨by decide, fun h => Json.noConfusion h,
    C2_ingest_persists _ _ _ _ (by decide) (fun h => Json.noConfusion h)⟩

/-- Response of the `GET /health` handler: HTTP status, the `status` body
field, the `mongo` body field (absent on the catch path), and the reported
process uptime (absent on the catch path). -/
structure HealthResponse where
  status : Nat
  state : String
  mongo : Option String
  uptime : Option Nat

/-- Embedding of the `GET /health` handler (`src/src/index.js` lines 40-53):
read `mongoose.connection.readyState` (1 means connected), answer 200/healthy
when connected and 503/unhealthy otherwise; any exception in the try body
(modelled by `errored`) is caught and mapped to a 503 unhealthy response. -/
def checkHealth (readyState : Nat) (uptime : Nat) (errored : Bool) :
    HealthResponse :=
  if errored then
    { status := 503, state := "unhealthy", mongo := none, uptime := none }
  else
    let isDbConnected := readyState == 1
    { status := if isDbConnected then 200 else 503
    , state := if isDbConnected then "healthy" else "unhealthy"
    , mongo := some (if isDbConnected then "connected" else "disconnected")
    , uptime := some uptime }

/-- C9: the health check never fails with an internal error: for every
connection state it answers either 200 or 503 and never 500; it reports 200
with `mongo: "connected"` exactly when the store is connected
(`readyState = 1`) and 503 with `mongo: "disconnected"` otherwise; an
exception inside the handler is caught and mapped to a 503 unhealthy
response, never a 500. -/
theorem C9_health_never_500 (readyState uptime : Nat) (errored : Bool) :
    ((checkHealth readyState uptime errored).status = 200 ∨
      (checkHealth readyState uptime errored).status = 503) ∧
    (checkHealth readyState uptime errored).status ≠ 500 ∧
    ((checkHealth readyState uptime false).status = 200 ↔ readyState = 1) ∧
    ((checkHealth readyState uptime false).state = "healthy" ↔ readyState = 1) ∧
    (checkHealth readyState uptime false).mongo =
      some (if readyState = 1 then "connected" else "disconnected") ∧
    (checkHealth readyState uptime true).status = 503 ∧
    (checkHealth readyState uptime true).state = "unhealthy" := by
  by_cases hr : readyState = 1 <;> cases errored <;>
    simp [checkHealth, hr]

theorem leCreated_trans (a b c : LogRecord) (hab : leCreated a b = true)
    (hbc : leCreated b c = true) : leCreated a c = true := by
  simp only [leCreated, decide_eq_true_eq] at *
  omega

theorem leCreated_total (a b : LogRecord) :
    (leCreated a b || leCreated b a) = true := by
  simp only [leCreated, Bool.or_eq_true, decide_eq_true_eq]
  omega

/-- Scan order as the claim states it: `createdAt` ascending with ties
broken by insertion order, i.e. by the store-assigned id. The code does not
guarantee this tie order (see `isScanResult`). -/
def recordLex (a b : LogRecord) : Prop :=
  a.createdAt < b.createdAt ∨ (a.createdAt = b.createdAt ∧ a.id < b.id)

theorem scanAll_isScanResult (store : Store) :
    isScanResult store (scanAll store) := by
  unfold isScanResult scanAll
  refine ⟨List.mergeSort_perm store leCreated, ?_⟩
  have h := List.sorted_mergeSort leCreated_trans leCreated_total store
  exact h.imp (fun hab => by simpa [leCreated] using hab)

theorem mem_scanAll {store : Store} {r : LogRecord} :
    r ∈ scanAll store ↔ r ∈ store := by
  unfold scanAll
  exact List.mem_mergeSort

theorem wfStore_append {store : Store} (hwf : wfStore store) (sid : String)
    (body : Json) (now : Nat) :
    wfStore (store ++ [⟨store.length, sid, body, now⟩]) := by
  unfold wfStore at *
  simp [List.range_succ, hwf]

theorem wf_id_unique {store : Store} (hwf : wfStore store) {x y : LogRecord}
    (hx : x ∈ store) (hy : y ∈ store) (hxy : x.id = y.id) : x = y := by
  have hids : (store.map (fun r => r.id)).Nodup := by
    rw [hwf]
    exact List.nodup_range store.length
  exact List.inj_on_of_nodup_map hids hx hy hxy

/-- A sample collection with two records sharing a creation timestamp,
used to instantiate the ordering theorems. -/
def sampleStore : Store :=
  [⟨0, "550e8400-e29b-41d4-a716-446655440000", Json.num 1, 5⟩,
    ⟨1, "6fa459ea-ee8a-4ca4-894e-db77e160355e", Json.num 2, 5⟩]

/-- The two records of `sampleStore` in reversed order: an admissible result
of the `createdAt` sort on `sampleStore`, since both records share
`createdAt = 5`. -/
def revSampleScan : List LogRecord :=
  [⟨1, "6fa459ea-ee8a-4ca4-894e-db77e160355e", Json.num 2, 5⟩,
    ⟨0, "550e8400-e29b-41d4-a716-446655440000", Json.num 1, 5⟩]

theorem revSampleScan_isScanResult :
    isScanResult sampleStore revSampleScan := by
  unfold isScanResult revSampleScan sampleStore
  exact ⟨List.Perm.swap _ _ _, List.pairwise_pair.2 (by decide)⟩

/-- C4 (counterexample): the claimed tie order is not guaranteed by the
program: on the well-formed collection `sampleStore`, whose two records
share `createdAt = 5`, the reversed list `revSampleScan` is an admissible
result of `sort(\x7b createdAt: 1 \x7d)` — a `createdAt`-sorted permutation
of the collection — yet it violates the claimed `createdAt`-then-id order
(the record with id 1 precedes the record with id 0). -/
theorem C4_counterexample :
    wfStore sampleStore ∧
    isScanResult sampleStore revSampleScan ∧
    ¬ revSampleScan.Pairwise recordLex := by
  refine ⟨rfl, revSampleScan_isScanResult, ?_⟩
  intro h
  unfold revSampleScan at h
  have h2 := List.pairwise_pair.1 h
  unfold recordLex at h2
  simp at h2

/-- C4 (amended): every admissible full scan — any list the
`sort(\x7b createdAt: 1 \x7d)` query may return for the persisted
collection — contains every persisted record exactly once (it is a
permutation of the collection and, on a well-formed store, its ids are
pairwise distinct) and is ordered by `createdAt` ascending; the relative
order of records with equal `createdAt` is not guaranteed (the query
supplies no secondary `_id` sort key), and the deterministic `scanAll`
realization used by this development is one admissible result. -/
theorem C4_scan_ordered (store : Store) (l : List LogRecord)
    (hwf : wfStore store) (h : isScanResult store l) :
    l.Perm store ∧
    l.Pairwise (fun a b => a.createdAt ≤ b.createdAt) ∧
    (l.map (fun r => r.id)).Nodup ∧
    isScanResult store (scanAll store) := by
  refine ⟨h.1, h.2, ?_, scanAll_isScanResult store⟩
  have hperm := h.1.map (fun r => r.id)
  have hnd : (store.map (fun r => r.id)).Nodup := by
    rw [hwf]
    exact List.nodup_range store.length
  exact hperm.symm.nodup hnd

theorem C4_witness :
    wfStore sampleStore ∧
    isScanResult sampleStore revSampleScan ∧
    (revSampleScan.Perm sampleStore ∧
      revSampleScan.Pairwise (fun a b => a.createdAt ≤ b.createdAt) ∧
      (revSampleScan.map (fun r => r.id)).Nodup ∧
      isScanResult sampleStore (scanAll sampleStore)) :=
  ⟨rfl, revSampleScan_isScanResult,
    C4_scan_ordered sampleStore revSampleScan rfl revSampleScan_isScanResult⟩

/-- C6: round-trip: when a record is inserted with a payload `P` that the
store accepts, the subsequent full scan contains the record created for it —
identified by the assigned id — its `data` field is structurally equal to
`P`, and it is the unique scanned record with that id. -/
theorem C6_roundtrip (sid : String) (body : Json) (now : Nat) (store : Store)
    (hwf : wfStore store) (hsid : uuidRegexTest sid = true)
    (hbody : body ≠ Json.null) :
    ∃ r ∈ scanAll (ingest sid body now store).2,
      r.id = store.length ∧ r.data = body ∧ r.sessionId = sid ∧
      ∀ x ∈ scanAll (ingest sid body now store).2, x.id = store.length →
        x = r := by
  have hreq : mixedCheckRequired body = true := by
    cases body with
    | null => exact absurd rfl hbody
    | bool b => rfl
    | num n => rfl
    | str s => rfl
    | arr xs => rfl
    | obj fs => rfl
  have hstep : (ingest sid body now store).2 =
      store ++ [⟨store.length, sid, body, now⟩] := by
    simp [ingest, hsid, hreq]
  have hwf2 : wfStore (ingest sid body now store).2 := by
    rw [hstep]
    exact wfStore_append hwf sid body now
  have hmem : (⟨store.length, sid, body, now⟩ : LogRecord) ∈
      (ingest sid body now store).2 := by
    rw [hstep]
    exact List.mem_append_right _ (List.mem_singleton.2 rfl)
  refine ⟨⟨store.length, sid, body, now⟩, mem_scanAll.2 hmem, rfl, rfl, rfl, ?_⟩
  intro x hx hxid
  exact wf_id_unique hwf2 (mem_scanAll.1 hx) hmem hxid

theorem C6_witness :
    wfStore sampleStore ∧
    uuidRegexTest "7c9e6679-7425-40de-944b-e07fc1f90ae7" = true ∧
    Json.str "payload" ≠ Json.null ∧
    ∃ r ∈ scanAll (ingest "7c9e6679-7425-40de-944b-e07fc1f90ae7"
        (Json.str "payload") 9 sampleStore).2,
      r.id = sampleStore.length ∧ r.data = Json.str "payload" ∧
      r.sessionId = "7c9e6679-7425-40de-944b-e07fc1f90ae7" ∧
      ∀ x ∈ scanAll (ingest "7c9e6679-7425-40de-944b-e07fc1f90ae7"
          (Json.str "payload") 9 sampleStore).2, x.id = sampleStore.length →
        x = r :=
  ⟨rfl, by decide, fun h => Json.noConfusion h,
    C6_roundtrip _ _ _ _ rfl (by decide) (fun h => Json.noConfusion h)⟩

/-- The record projection used by `exportAsJson`, `exportAsNdjson` and the
`GET /export` endpoint: id, sessionId, data and the serialized timestamp. -/
structure ExportEntry where
  id : Nat
  sessionId : String
  data : Json
  createdAt : Nat

/-- Per-record projection `log => (\x7bid, sessionId, data, createdAt\x7d)`
shared by the array, the NDJSON and the endpoint export. -/
def projectLog (l : LogRecord) : ExportEntry :=
  ⟨l.id, l.sessionId, l.data, l.createdAt⟩

/-- The array projection of `exportAsJson` (and of `GET /export`): the full
field subset of every scanned record, in scan order. -/
def exportAsJsonData (logs : List LogRecord) : List ExportEntry :=
  logs.map projectLog

/-- JSON string escaping of the double quote and the backslash
(JSON.stringify additionally escapes control characters; no claim depends on
string contents). -/
def escapeChar (c : Char) : String :=
  if c = '"' then "\\\"" else if c = '\\' then "\\\\" else String.singleton c

/-- Escape every character of a string for JSON output. -/
def escapeString (s : String) : String :=
  String.join (s.data.map escapeChar)

mutual

/-- Model of `JSON.stringify` on payload values. -/
def stringifyJson : Json → String
  | Json.null => "null"
  | Json.bool true => "true"
  | Json.bool false => "false"
  | Json.num n => toString n
  | Json.str s => "\"" ++ escapeString s ++ "\""
  | Json.arr xs => "[" ++ stringifyJsonArr xs ++ "]"
  | Json.obj fs => "\x7b" ++ stringifyJsonObj fs ++ "\x7d"

/-- Comma-separated serialization of an array body. -/
def stringifyJsonArr : List Json → String
  | [] => ""
  | [x] => stringifyJson x
  | x :: xs => stringifyJson x ++ "," ++ stringifyJsonArr xs

/-- Comma-separated serialization of an object body. -/
def stringifyJsonObj : List (String × Json) → String
  | [] => ""
  | [(k, v)] => "\"" ++ escapeString k ++ "\":" ++ stringifyJson v
  | (k, v) :: fs =>
    "\"" ++ escapeString k ++ "\":" ++ stringifyJson v ++ "," ++
      stringifyJsonObj fs

end

/-- Serialization of one projected record, as one NDJSON line or one array
element (the ISO-8601 rendering of `createdAt` is abstracted by the decimal
rendering of the timestamp). -/
def stringifyEntry (e : ExportEntry) : String :=
  "\x7b\"id\":\"" ++ toString e.id ++ "\",\"sessionId\":\"" ++
    escapeString e.sessionId ++ "\",\"data\":" ++ stringifyJson e.data ++
    ",\"createdAt\":\"" ++ toString e.createdAt ++ "\"\x7d"

/-- The NDJSON projection of `exportAsNdjson`: one serialized record per
line, in scan order. -/
def exportAsNdjsonLines (logs : List LogRecord) : List String :=
  logs.map (fun l => stringifyEntry (projectLog l))

/-- Model of `JSON.stringify(logs)` as used by `printStatistics` to compute
the total data size: the whole collection serialized as one JSON array. -/
def stringifyLogs (logs : List LogRecord) : String :=
  "[" ++ String.intercalate ","
    (logs.map (fun l => stringifyEntry (projectLog l))) ++ "]"

/-- The `totalSize` of `printStatistics`: `JSON.stringify(logs).length`. -/
def totalDataSize (logs : List LogRecord) : Nat :=
  (stringifyLogs logs).length

/-- One per-session export entry: the same field subset as the array export
minus `sessionId` (which is the grouping key). -/
structure SessionEntry where
  id : Nat
  data : Json
  createdAt : Nat

/-- Projection pushed by `exportBySession` into a session's array. -/
def sessionProj (l : LogRecord) : SessionEntry :=
  ⟨l.id, l.data, l.createdAt⟩

/-- One step of the `exportBySession` grouping loop: a JavaScript object is
keyed by the session id with keys in insertion order; the entry is appended
to the key's array, which is created on first appearance. -/
def addToGroup (groups : List (String × List SessionEntry)) (sid : String)
    (e : SessionEntry) : List (String × List SessionEntry) :=
  match groups with
  | [] => [(sid, [e])]
  | (k, es) :: rest =>
    if k = sid then (k, es ++ [e]) :: rest
    else (k, es) :: addToGroup rest sid e

/-- Embedding of the `sessionGroups` accumulation of `exportBySession`
(`src/scripts/export-all-data.js` lines 100-111). -/
def sessionGroups (logs : List LogRecord) :
    List (String × List SessionEntry) :=
  logs.foldl (fun g l => addToGroup g l.sessionId (sessionProj l)) []

/-- Access `sessionGroups[sid]`: the session's array, or `[]` if absent. -/
def lookupGroup (groups : List (String × List SessionEntry)) (sid : String) :
    List SessionEntry :=
  match groups with
  | [] => []
  | (k, es) :: rest => if k = sid then es else lookupGroup rest sid

theorem addToGroup_cons_eq {k : String} {es : List SessionEntry}
    {rest : List (String × List SessionEntry)} {sid : String}
    {e : SessionEntry} (h : k = sid) :
    addToGroup ((k, es) :: rest) sid e = (k, es ++ [e]) :: rest := by
  simp [addToGroup, h]

theorem addToGroup_cons_ne {k : String} {es : List SessionEntry}
    {rest : List (String × List SessionEntry)} {sid : String}
    {e : SessionEntry} (h : ¬ k = sid) :
    addToGroup ((k, es) :: rest) sid e = (k, es) :: addToGroup rest sid e := by
  simp [addToGroup, h]

theorem lookupGroup_addToGroup (groups : List (String × List SessionEntry))
    (sid sid2 : String) (e : SessionEntry) :
    lookupGroup (addToGroup groups sid e) sid2 =
      if sid = sid2 then lookupGroup groups sid2 ++ [e]
      else lookupGroup groups sid2 := by
  induction groups with
  | nil =>
    by_cases h : sid = sid2 <;> simp [addToGroup, lookupGroup, h]
  | cons p rest ih =>
    obtain ⟨k, es⟩ := p
    by_cases hk : k = sid
    · subst hk
      by_cases h2 : k = sid2 <;> simp [addToGroup, lookupGroup, h2]
    · by_cases h2 : k = sid2
      · subst h2
        have hne : sid ≠ k := fun h => hk h.symm
        simp [addToGroup, lookupGroup, hk, hne]
      · simp [addToGroup, lookupGroup, hk, h2, ih]

theorem lookupGroup_foldl (logs : List LogRecord)
    (g : List (String × List SessionEntry)) (sid : String) :
    lookupGroup
        (logs.foldl (fun g l => addToGroup g l.sessionId (sessionProj l)) g)
        sid =
      lookupGroup g sid ++
        (logs.filter (fun l => l.sessionId == sid)).map sessionProj := by
  induction logs generalizing g with
  | nil => simp
  | cons l rest ih =>
    simp only [List.foldl_cons]
    rw [ih]
    by_cases h : l.sessionId = sid
    · simp [List.filter_cons, h, lookupGroup_addToGroup, List.append_assoc]
    · simp [List.filter_cons, h, lookupGroup_addToGroup]

theorem keys_addToGroup (groups : List (String × List SessionEntry))
    (sid : String) (e : SessionEntry) (k : String) :
    k ∈ (addToGroup groups sid e).map Prod.fst ↔
      k ∈ groups.map Prod.fst ∨ k = sid := by
  induction groups with
  | nil => simp [addToGroup]
  | cons p rest ih =>
    obtain ⟨k2, es⟩ := p
    by_cases hk : k2 = sid
    · subst hk
      rw [addToGroup_cons_eq rfl]
      simp only [List.map_cons, List.mem_cons]
      tauto
    · rw [addToGroup_cons_ne hk]
      simp only [List.map_cons, List.mem_cons, ih]
      tauto

theorem nodup_keys_addToGroup (groups : List (String × List SessionEntry))
    (sid : String) (e : SessionEntry)
    (h : (groups.map Prod.fst).Nodup) :
    ((addToGroup groups sid e).map Prod.fst).Nodup := by
  induction groups with
  | nil => simp [addToGroup]
  | cons p rest ih =>
    obtain ⟨k, es⟩ := p
    simp only [List.map_cons, List.nodup_cons] at h
    by_cases hk : k = sid
    · subst hk
      rw [addToGroup_cons_eq rfl]
      simp only [List.map_cons, List.nodup_cons]
      exact h
    · rw [addToGroup_cons_ne hk]
      simp only [List.map_cons, List.nodup_cons]
      refine ⟨?_, ih h.2⟩
      intro hc
      rcases (keys_addToGroup rest sid e k).1 hc with h1 | h1
      · exact h.1 h1
      · exact hk h1

theorem nodup_keys_sessionGroups_aux (logs : List LogRecord)
    (g : List (String × List SessionEntry))
    (hg : (g.map Prod.fst).Nodup) :
    (((logs.foldl (fun g l => addToGroup g l.sessionId (sessionProj l)) g)).map
      Prod.fst).Nodup := by
  induction logs generalizing g with
  | nil => simpa using hg
  | cons l rest ih =>
    simp only [List.foldl_cons]
    exact ih _ (nodup_keys_addToGroup g l.sessionId (sessionProj l) hg)

theorem nodup_keys_sessionGroups (logs : List LogRecord) :
    ((sessionGroups logs).map Prod.fst).Nodup :=
  nodup_keys_sessionGroups_aux logs [] (by simp)

theorem lookupGroup_of_mem {groups : List (String × List SessionEntry)}
    (hnd : (groups.map Prod.fst).Nodup) {p : String × List SessionEntry}
    (hp : p ∈ groups) : lookupGroup groups p.1 = p.2 := by
  induction groups with
  | nil => cases hp
  | cons q rest ih =>
    obtain ⟨k, es⟩ := q
    simp only [List.map_cons, List.nodup_cons] at hnd
    rcases List.mem_cons.1 hp with h | h
    · subst h
      simp [lookupGroup]
    · have hne : k ≠ p.1 := by
        intro hcontra
        apply hnd.1
        rw [hcontra]
        exact List.mem_map_of_mem Prod.fst h
      simp only [lookupGroup, if_neg hne]
      exact ih hnd.2 h

theorem mem_of_lookupGroup {groups : List (String × List SessionEntry)}
    {sid : String} (h : lookupGroup groups sid ≠ []) :
    (sid, lookupGroup groups sid) ∈ groups := by
  induction groups with
  | nil => simp [lookupGroup] at h
  | cons q rest ih =>
    obtain ⟨k, es⟩ := q
    by_cases hk : k = sid
    · subst hk
      simp [lookupGroup]
    · simp only [lookupGroup, if_neg hk] at h ⊢
      exact List.mem_cons_of_mem _ (ih h)

/-- C5: the by-session projection maps each session id to exactly the
scanned records bearing that id, in scan order, carrying the reduced field
subset (id, data, createdAt); consequently each record of the scan appears in
its session's group and the union of the groups equals the projected scan as
a set. -/
theorem C5_bySession_grouping (logs : List LogRecord) (sid : String)
    (e : SessionEntry) :
    lookupGroup (sessionGroups logs) sid =
      (logs.filter (fun l => l.sessionId == sid)).map sessionProj ∧
    ((∃ p ∈ sessionGroups logs, e ∈ p.2) ↔ ∃ l ∈ logs, sessionProj l = e) := by
  have hchar : ∀ s : String, lookupGroup (sessionGroups logs) s =
      (logs.filter (fun l => l.sessionId == s)).map sessionProj := by
    intro s
    have h := lookupGroup_foldl logs [] s
    simpa [sessionGroups, lookupGroup] using h
  refine ⟨hchar sid, ?_, ?_⟩
  · rintro ⟨p, hp, he⟩
    have hl := lookupGroup_of_mem (nodup_keys_sessionGroups logs) hp
    rw [hchar p.1] at hl
    rw [← hl] at he
    obtain ⟨l, hlmem, hle⟩ := List.mem_map.1 he
    exact ⟨l, List.mem_of_mem_filter hlmem, hle⟩
  · rintro ⟨l, hl, he⟩
    have hmem : sessionProj l ∈ lookupGroup (sessionGroups logs) l.sessionId := by
      rw [hchar l.sessionId]
      exact List.mem_map_of_mem _ (List.mem_filter.2 ⟨hl, by simp⟩)
    have hne : lookupGroup (sessionGroups logs) l.sessionId ≠ [] :=
      List.ne_nil_of_mem hmem
    refine ⟨(l.sessionId, lookupGroup (sessionGroups logs) l.sessionId),
      mem_of_lookupGroup hne, ?_⟩
    rw [← he] at *
    exact hmem

/-- The statistics block printed by `printStatistics`: total records, number
of unique sessions, total serialized size, and the `createdAt` range (absent
when the collection is empty — the script prints no date range then). -/
structure Stats where
  totalRecords : Nat
  uniqueSessions : Nat
  totalSizeBytes : Nat
  oldest : Option Nat
  newest : Option Nat

/-- Embedding of `printStatistics` (`src/scripts/export-all-data.js` lines
125-140): `logs.length`, `new Set(logs.map(log => log.sessionId)).size`,
`JSON.stringify(logs).length`, and the two `reduce` passes picking the
record with the smallest and largest `createdAt` (guarded by
`logs.length > 0`). -/
def computeStats (logs : List LogRecord) : Stats :=
  { totalRecords := logs.length
  , uniqueSessions := (logs.map (fun l => l.sessionId)).dedup.length
  , totalSizeBytes := totalDataSize logs
  , oldest :=
      match logs with
      | [] => none
      | a :: rest =>
        some ((rest.foldl
          (fun x y => if x.createdAt < y.createdAt then x else y) a).createdAt)
  , newest :=
      match logs with
      | [] => none
      | a :: rest =>
        some ((rest.foldl
          (fun x y => if x.createdAt > y.createdAt then x else y) a).createdAt) }

theorem foldl_pickMin_createdAt (rest : List LogRecord) (a : LogRecord) :
    (rest.foldl (fun x y => if x.createdAt < y.createdAt then x else y)
        a).createdAt =
      (rest.map (fun r => r.createdAt)).foldl min a.createdAt := by
  induction rest generalizing a with
  | nil => rfl
  | cons b rest ih =>
    simp only [List.foldl_cons, List.map_cons]
    rw [ih]
    congr 1
    by_cases h : a.createdAt < b.createdAt
    · rw [if_pos h]
      omega
    · rw [if_neg h]
      omega

theorem foldl_pickMax_createdAt (rest : List LogRecord) (a : LogRecord) :
    (rest.foldl (fun x y => if x.createdAt > y.createdAt then x else y)
        a).createdAt =
      (rest.map (fun r => r.createdAt)).foldl max a.createdAt := by
  induction rest generalizing a with
  | nil => rfl
  | cons b rest ih =>
    simp only [List.foldl_cons, List.map_cons]
    rw [ih]
    congr 1
    by_cases h : a.createdAt > b.createdAt
    · rw [if_pos h]
      omega
    · rw [if_neg h]
      omega

/-- C7: the computed statistics are correct on every scanned record set:
`totalRecords` is the number of records, `uniqueSessions` the number of
distinct session ids, `oldest` and `newest` the minimum and maximum
`createdAt`, and the latter two are absent exactly when the record set is
empty. -/
theorem C7_statistics (logs : List LogRecord) :
    (computeStats logs).totalRecords = logs.length ∧
    (computeStats logs).uniqueSessions =
      (logs.map (fun r => r.sessionId)).toFinset.card ∧
    (computeStats logs).oldest = (logs.map (fun r => r.createdAt)).min? ∧
    (computeStats logs).newest = (logs.map (fun r => r.createdAt)).max? ∧
    ((computeStats logs).oldest = none ↔ (computeStats logs).totalRecords = 0) ∧
    ((computeStats logs).newest = none ↔ (computeStats logs).totalRecords = 0) := by
  refine ⟨rfl, ?_, ?_, ?_, ?_, ?_⟩
  · rw [List.card_toFinset]
    rfl
  · cases logs with
    | nil => rfl
    | cons a rest =>
      show some _ = (a.createdAt :: rest.map (fun r => r.createdAt)).min?
      rw [List.min?]
      exact congrArg some (foldl_pickMin_createdAt rest a)
  · cases logs with
    | nil => rfl
    | cons a rest =>
      show some _ = (a.createdAt :: rest.map (fun r => r.createdAt)).max?
      rw [List.max?]
      exact congrArg some (foldl_pickMax_createdAt rest a)
  · cases logs with
    | nil => simp [computeStats]
    | cons a rest => simp [computeStats]
  · cases logs with
    | nil => simp [computeStats]
    | cons a rest => simp [computeStats]

/-- Result of one run of the export script: the file paths written (in
order), the process exit code, and the statistics block printed to standard
output (absent when the zero-record early return skips it). -/
structure ScriptRun where
  writtenFiles : List String
  exitCode : Nat
  printedStats : Option Stats

/-- Embedding of `exportAllData` (`src/scripts/export-all-data.js` lines
146-188) on a successfully fetched, already scan-ordered log set: with zero
records the script logs "No data found", closes the connection and returns
without writing anything (the process then exits with code 0); otherwise it
prints the statistics, writes the array export, the NDJSON export and one
file per session under `by-session/`, and exits 0. `dateStr` abstracts the
`YYYY-MM-DD` stamp taken from the wall clock and `outDir` the `OUTPUT_DIR`
configuration. -/
def exportAllData (logs : List LogRecord) (dateStr outDir : String) :
    ScriptRun :=
  if logs.length = 0 then
    { writtenFiles := [], exitCode := 0, printedStats := none }
  else
    { writtenFiles :=
        [outDir ++ "/all-data-" ++ dateStr ++ ".json",
          outDir ++ "/all-data-" ++ dateStr ++ ".ndjson"] ++
          (sessionGroups logs).map
            (fun p => outDir ++ "/by-session/" ++ p.1 ++ ".json")
    , exitCode := 0
    , printedStats := some (computeStats logs) }

/-- C8 (counterexample): the empty-store statistics are not those the claim
states: the code computes the total data size as
`JSON.stringify(logs).length`, which on the empty collection is the length
of the two-character string `[]` — 2 bytes, not 0; moreover the zero-record
run returns before printing any statistics block at all. -/
theorem C8_counterexample :
    (computeStats []).totalSizeBytes = 2 ∧
    (computeStats []).totalSizeBytes ≠ 0 ∧
    (exportAllData [] "2025-10-12" "exports").printedStats = none :=
  ⟨rfl, by decide, rfl⟩

/-- C8 (amended): on an empty store every projection is empty (the array,
the NDJSON lines and the by-session groups), the script performs no writes
and exits 0; the statistics block is skipped entirely in the zero-record
case — had it been computed, it would report 0 records, 0 unique sessions
and no date range, but a total size of 2 bytes (the encoded empty array),
not 0. -/
theorem C8_empty_store (dateStr outDir : String) :
    exportAsJsonData [] = [] ∧
    exportAsNdjsonLines [] = [] ∧
    sessionGroups [] = [] ∧
    exportAllData [] dateStr outDir =
      { writtenFiles := [], exitCode := 0, printedStats := none } ∧
    computeStats [] =
      { totalRecords := 0, uniqueSessions := 0, totalSizeBytes := 2,
        oldest := none, newest := none } :=
  ⟨rfl, rfl, rfl, rfl, rfl⟩

/-- The per-session export file name `sessionId + ".json"` written by
`exportBySession` under `by-session/`. -/
def sessionFileName (sid : String) : String := sid ++ ".json"

theorem uuid_chars {s : String} (h : uuidRegexTest s = true) :
    ∀ c ∈ s.data, isHexChar c = true ∨ c = '-' := by
  obtain ⟨g1, g2, g3, g4, g5, hs, l1, l2, l3, l4, l5, a1, a2,
    ⟨v, t3, hg3, hv, a3⟩, ⟨w, t4, hg4, hw, a4⟩, a5⟩ :=
    uuidRegexTest_iff_grammar.1 h
  subst hg3
  subst hg4
  intro c hc
  rw [hs] at hc
  simp only [List.mem_append, List.mem_cons] at hc
  have hver : ∀ x : Char, isVersionChar x = true → isHexChar x = true := by
    intro x hx
    simp only [isVersionChar, Bool.and_eq_true, decide_eq_true_eq] at hx
    simp only [isHexChar, Bool.or_eq_true, Bool.and_eq_true, decide_eq_true_eq]
    exact Or.inl (Or.inl ⟨le_trans (by decide) hx.1, le_trans hx.2 (by decide)⟩)
  have hvar : ∀ x : Char, isVariantChar x = true → isHexChar x = true := by
    intro x hx
    simp only [isVariantChar, Bool.or_eq_true, beq_iff_eq] at hx
    rcases hx with ((((h1 | h1) | h1) | h1) | h1) | h1 <;> subst h1 <;> decide
  rcases hc with h1 | h1 | h1 | h1 | (h1 | h1) | h1 | (h1 | h1) | h1 | h1
  · exact Or.inl (a1 c h1)
  · exact Or.inr h1
  · exact Or.inl (a2 c h1)
  · exact Or.inr h1
  · subst h1
    exact Or.inl (hver c hv)
  · exact Or.inl (a3 c h1)
  · exact Or.inr h1
  · subst h1
    exact Or.inl (hvar c hw)
  · exact Or.inl (a4 c h1)
  · exact Or.inr h1
  · exact Or.inl (a5 c h1)

theorem uuid_length {s : String} (h : uuidRegexTest s = true) :
    s.length = 36 := by
  obtain ⟨g1, g2, g3, g4, g5, hs, l1, l2, l3, l4, l5, -, -, -, -, -⟩ :=
    uuidRegexTest_iff_grammar.1 h
  have h36 : s.data.length = 36 := by
    rw [hs]
    simp [l1, l2, l3, l4, l5]
  exact h36

theorem reachable_sessions_valid {store : Store} (h : Reachable store) :
    ∀ r ∈ store, uuidRegexTest r.sessionId = true := by
  induction h with
  | empty =>
    intro r hr
    cases hr
  | step sid body now hprev ih =>
    rename_i s
    intro r hr
    by_cases h1 : uuidRegexTest sid = true
    · by_cases h2 : mixedCheckRequired body = true
      · have hstep : (ingest sid body now s).2 =
            s ++ [⟨s.length, sid, body, now⟩] := by
          simp [ingest, h1, h2]
        rw [hstep] at hr
        rcases List.mem_append.1 hr with h3 | h3
        · exact ih r h3
        · rw [List.mem_singleton.1 h3]
          exact h1
      · have hstep : (ingest sid body now s).2 = s := by
          simp [ingest, h1, h2]
        rw [hstep] at hr
        exact ih r hr
    · have hstep : (ingest sid body now s).2 = s := by
        simp [ingest, h1]
      rw [hstep] at hr
      exact ih r hr

theorem no_dotdot_of_clean {l : List Char} (hl : ∀ c ∈ l, c ≠ '.') :
    ¬ ['.', '.'] <:+: (l ++ ('.' :: 'j' :: 's' :: 'o' :: 'n' :: [])) := by
  induction l with
  | nil => decide
  | cons c cs ih =>
    intro h
    rw [List.cons_append] at h
    rcases List.infix_cons_iff.1 h with h1 | h1
    · obtain ⟨t, ht⟩ := h1
      have hc : c = '.' := by
        have hh := congrArg (fun l => l.head?) ht
        simpa using hh.symm
      exact hl c (List.mem_cons_self c cs) hc
    · exact ih (fun x hx => hl x (List.mem_cons_of_mem c hx)) h1

/-- C10: every record persisted through the ingestion endpoint (any store
reachable from the empty collection through `ingest`) carries a session id
that matched the validation regex at insert time: exactly 36 characters, all
case-insensitive hex digits or dashes in the fixed 8-4-4-4-12 shape;
consequently the per-session export file name `sessionId + ".json"` contains
no path separator (no slash, no backslash) and no `..` traversal sequence. -/
theorem C10_session_filenames_safe (store : Store)
    (hreach : Reachable store) :
    ∀ r ∈ store, uuidRegexTest r.sessionId = true ∧
      r.sessionId.length = 36 ∧
      (∀ c ∈ r.sessionId.data, isHexChar c = true ∨ c = '-') ∧
      '/' ∉ (sessionFileName r.sessionId).data ∧
      '\\' ∉ (sessionFileName r.sessionId).data ∧
      ¬ ['.', '.'] <:+: (sessionFileName r.sessionId).data := by
  intro r hr
  have hval := reachable_sessions_valid hreach r hr
  have hchars := uuid_chars hval
  have hdata : (sessionFileName r.sessionId).data =
      r.sessionId.data ++ ('.' :: 'j' :: 's' :: 'o' :: 'n' :: []) := rfl
  refine ⟨hval, uuid_length hval, hchars, ?_, ?_, ?_⟩
  · rw [hdata]
    intro hc
    rcases List.mem_append.1 hc with h1 | h1
    · rcases hchars _ h1 with h2 | h2
      · exact absurd h2 (by decide)
      · exact absurd h2 (by decide)
    · exact absurd h1 (by decide)
  · rw [hdata]
    intro hc
    rcases List.mem_append.1 hc with h1 | h1
    · rcases hchars _ h1 with h2 | h2
      · exact absurd h2 (by decide)
      · exact absurd h2 (by decide)
    · exact absurd h1 (by decide)
  · rw [hdata]
    apply no_dotdot_of_clean
    intro c hc hdot
    subst hdot
    rcases hchars _ hc with h2 | h2
    · exact absurd h2 (by decide)
    · exact absurd h2 (by decide)

theorem C10_witness :
    Reachable (ingest "550e8400-e29b-41d4-a716-446655440000"
      (Json.obj [("event", Json.str "login")]) 4 []).2 ∧
    ∀ r ∈ (ingest "550e8400-e29b-41d4-a716-446655440000"
        (Json.obj [("event", Json.str "login")]) 4 []).2,
      uuidRegexTest r.sessionId = true ∧ r.sessionId.length = 36 ∧
      (∀ c ∈ r.sessionId.data, isHexChar c = true ∨ c = '-') ∧
      '/' ∉ (sessionFileName r.sessionId).data ∧
      '\\' ∉ (sessionFileName r.sessionId).data ∧
      ¬ ['.', '.'] <:+: (sessionFileName r.sessionId).data :=
  ⟨Reachable.step _ _ _ Reachable.empty,
    C10_session_filenames_safe _ (Reachable.step _ _ _ Reachable.empty)⟩

theorem reachable_wfStore {store : Store} (h : Reachable store) :
    wfStore store := by
  induction h with
  | empty => rfl
  | step sid body now hprev ih =>
    rename_i s
    by_cases h1 : uuidRegexTest sid = true
    · by_cases h2 : mixedCheckRequired body = true
      · have hstep : (ingest sid body now s).2 =
            s ++ [⟨s.length, sid, body, now⟩] := by
          simp [ingest, h1, h2]
        rw [hstep]
        exact wfStore_append ih sid body now
      · have hstep : (ingest sid body now s).2 = s := by
          simp [ingest, h1, h2]
        rw [hstep]
        exact ih
    · have hstep : (ingest sid body now s).2 = s := by
        simp [ingest, h1]
      rw [hstep]
      exact ih
